import Mathlib

/-!
Shallow embedding of the ordered-stage-enum core of `common_widgets`
(`src/common_widgets/stage_enum.py` and `src/common_widgets/ordered_enum.py`).

A member of an enum type carries a symbolic name and a raw underlying value.
A resolved type carries the declaration-order member list, the resolved
Ordering (a list of members) and the resolved transition flows (an
association list from a member to its list of legal successors).
Python exceptions are modelled with `Except PyErr`; Python list slicing and
indexing (including negative indices) are modelled by `pySlice` and `pyGet`.
-/

/-- Raw underlying value of an enum member (string or integer, as used by the
repository's enums and tests). -/
inductive RawVal where
  | str (s : String)
  | int (n : Int)
deriving DecidableEq, Repr

/-- An enum member: symbolic name paired with its raw value.  Python enum
members are singletons within their type, so structural equality models
identity equality. -/
structure Member where
  name : String
  value : RawVal
deriving DecidableEq, Repr

/-- A resolved stage-enum type: member list in declaration order, the resolved
Ordering, and the resolved flows mapping (association list, first match
wins, as for a Python dict built without duplicate keys). -/
structure StageEnumType where
  members : List Member
  ordering : List Member
  flows : List (Member × List Member)
deriving DecidableEq, Repr

/-- Python exceptions that the embedded code can raise. -/
inductive PyErr where
  | valueError
  | keyError
  | indexError (msg : String)
  | attributeError (attr : String)
deriving DecidableEq, Repr

/-- Argument of a query-time operation: either an already-canonical member or
a raw value (the two shapes the code distinguishes with `isinstance`). -/
inductive EnumArg where
  | mem (m : Member)
  | raw (v : RawVal)
deriving DecidableEq, Repr

/-- Python slice-index normalisation: negative indices count from the end and
clamp at 0, nonnegative indices clamp at the length. -/
def pyNorm (n : Nat) (k : Int) : Nat :=
  if k < 0 then (k + n).toNat else min k.toNat n

/-- Python list slicing `l[i:j]` with full negative-index semantics. -/
def pySlice (l : List α) (i j : Int) : List α :=
  (l.take (pyNorm l.length j)).drop (pyNorm l.length i)

/-- Python list indexing `l[k]`: a negative index counts from the end; an
index out of range yields `none` (an `IndexError` at the call site). -/
def pyGet (l : List α) (k : Int) : Option α :=
  let k' := if k < 0 then k + l.length else k
  if k' < 0 then none else l.get? k'.toNat

/-- Python `list.index`: position of the first occurrence, `none` when the
element is absent (a `ValueError` at the call site). -/
def listIndex (m : Member) : List Member → Option Nat
  | [] => none
  | x :: xs => if x = m then some 0 else (listIndex m xs).map (· + 1)

/-- Python `cls[name]`: exact lookup of a member by name. -/
def cls_getitem (T : StageEnumType) (s : String) : Option Member :=
  T.members.find? (fun m => m.name = s)

/-- Python `cls(value)`: lookup of a member by raw value (first declared
member with that value, as in the enum value-to-member map). -/
def cls_call (T : StageEnumType) (v : RawVal) : Option Member :=
  T.members.find? (fun m => m.value = v)

/-- Python `str.upper()`, modelled as upper-casing every character of the
string (the identifiers resolved here are plain ASCII names). -/
def pyUpper (s : String) : String :=
  ⟨s.data.map Char.toUpper⟩

/-- MetaOptions._get_enum_member: try `cls[value.upper()]`, fall back to
`cls(value)` on KeyError. -/
def get_enum_member (T : StageEnumType) (s : String) : Option Member :=
  match cls_getitem T (pyUpper s) with
  | some m => some m
  | none => cls_call T (RawVal.str s)

/-- MetaOptions.set_ordering: resolve every raw ordering identifier via
`_get_enum_member`, failing when any identifier resolves to no member. -/
def set_ordering (members : List Member) (raw : List String) :
    Option (List Member) :=
  raw.mapM (get_enum_member ⟨members, [], []⟩)

/-- MetaOptions.set_flows: resolve every key and every successor identifier
of the flow specification via `_get_enum_member`. -/
def set_flows (members : List Member) (raw : List (String × List String)) :
    Option (List (Member × List Member)) :=
  raw.mapM (fun kv => do
    let key ← get_enum_member ⟨members, [], []⟩ kv.1
    let fl ← kv.2.mapM (get_enum_member ⟨members, [], []⟩)
    pure (key, fl))

/-- MetaOptions.__init__ for a declared type: resolve the ordering and the
flows against the member list. -/
def resolveStage (members : List Member) (rawOrdering : List String)
    (rawFlows : List (String × List String)) : Option StageEnumType := do
  let ord ← set_ordering members rawOrdering
  let fl ← set_flows members rawFlows
  pure ⟨members, ord, fl⟩

/-- Python `flows.get(m) or []`: a missing key or an empty successor list
both give the empty list. -/
def flowsGet (fl : List (Member × List Member)) (m : Member) : List Member :=
  (fl.lookup m).getD []

namespace StageEnum

/-- StageEnum._member__: an already-canonical member is returned unchanged,
anything else goes through `cls(value)`, raising ValueError on failure. -/
def member__ (T : StageEnumType) (a : EnumArg) : Except PyErr Member :=
  match a with
  | .mem m => .ok m
  | .raw v =>
    match cls_call T v with
    | some m => .ok m
    | none => .error .valueError

/-- StageEnum.follows: coerce `other`, then test membership of `self` in
`flows.get(other) or []`. -/
def follows (T : StageEnumType) (self : Member) (other : EnumArg) :
    Except PyErr Bool := do
  let o ← member__ T other
  pure (decide (self ∈ flowsGet T.flows o))

/-- StageEnum.precedes: coerce `other`, then test membership of `other` in
`flows.get(self) or []`. -/
def precedes (T : StageEnumType) (self : Member) (other : EnumArg) :
    Except PyErr Bool := do
  let o ← member__ T other
  pure (decide (o ∈ flowsGet T.flows self))

/-- StageEnum.index_: `ordering.index(self)`, ValueError when absent. -/
def index_ (T : StageEnumType) (self : Member) : Except PyErr Nat :=
  match listIndex self T.ordering with
  | some i => .ok i
  | none => .error .valueError

/-- StageEnum.is_comparable: coerce inside a try block that catches
ValueError; true only when coercion succeeds and the member is in the
Ordering. -/
def is_comparable (T : StageEnumType) (a : EnumArg) : Bool :=
  match member__ T a with
  | .ok m => decide (m ∈ T.ordering)
  | .error _ => false

/-- StageEnum.__le__. -/
def le (T : StageEnumType) (self : Member) (other : EnumArg) :
    Except PyErr Bool := do
  let o ← member__ T other
  let i ← index_ T self
  let j ← index_ T o
  pure (decide (i ≤ j))

/-- StageEnum.__lt__. -/
def lt (T : StageEnumType) (self : Member) (other : EnumArg) :
    Except PyErr Bool := do
  let o ← member__ T other
  let i ← index_ T self
  let j ← index_ T o
  pure (decide (i < j))

/-- StageEnum.__ge__. -/
def ge (T : StageEnumType) (self : Member) (other : EnumArg) :
    Except PyErr Bool := do
  let o ← member__ T other
  let i ← index_ T self
  let j ← index_ T o
  pure (decide (j ≤ i))

/-- StageEnum.__gt__. -/
def gt (T : StageEnumType) (self : Member) (other : EnumArg) :
    Except PyErr Bool := do
  let o ← member__ T other
  let i ← index_ T self
  let j ← index_ T o
  pure (decide (j < i))

/-- StageEnum.__sub__: the members strictly between self and other in the
Ordering; the reversed branch uses the negative-index slice of the source. -/
def sub (T : StageEnumType) (self : Member) (other : EnumArg) :
    Except PyErr (List Member) := do
  let o ← member__ T other
  let i ← index_ T self
  let j ← index_ T o
  if i ≤ j then
    pure (pySlice T.ordering ((i : Int) + 1) (j : Int))
  else
    pure (pySlice T.ordering
      (-(T.ordering.length : Int) + (j : Int) + 1)
      (-(T.ordering.length : Int) + (i : Int)))

/-- StageEnum.pre_enum_member: explicit IndexError when the decremented index
is negative, otherwise plain list indexing. -/
def pre_enum_member (T : StageEnumType) (self : Member) :
    Except PyErr Member := do
  let i ← index_ T self
  let idx : Int := (i : Int) - 1
  if idx < 0 then
    .error (.indexError "No previous")
  else
    match pyGet T.ordering idx with
    | some m => .ok m
    | none => .error (.indexError "list index out of range")

/-- StageEnum.next_enum_member: plain list indexing at the incremented index,
raising IndexError past the end. -/
def next_enum_member (T : StageEnumType) (self : Member) :
    Except PyErr Member := do
  let i ← index_ T self
  match pyGet T.ordering ((i : Int) + 1) with
  | some m => .ok m
  | none => .error (.indexError "list index out of range")

/-- StageEnum.pre_enum_members: the slice `ordering[:index_]`. -/
def pre_enum_members (T : StageEnumType) (self : Member) :
    Except PyErr (List Member) := do
  let i ← index_ T self
  pure (pySlice T.ordering 0 (i : Int))

/-- StageEnum.next_enum_members: the slice `ordering[index_ + 1:]`. -/
def next_enum_members (T : StageEnumType) (self : Member) :
    Except PyErr (List Member) := do
  let i ← index_ T self
  pure (pySlice T.ordering ((i : Int) + 1) (T.ordering.length : Int))

end StageEnum

/-- Attribute read `meta.len_ordering` on the resolved MetaOptions object:
MetaOptions.__init__ sets only the attributes `ordering` and `flows`, so
this lookup always raises AttributeError. -/
def mo_len_ordering (_mo : StageEnumType) : Except PyErr α :=
  .error (.attributeError "len_ordering")

/-- Class attribute lookup on an OrderedEnum type: the metaclass stores the
resolved MetaOptions under the single attribute name `meta`, so any other
name raises AttributeError. -/
def oeGetAttr (T : StageEnumType) (s : String) : Except PyErr StageEnumType :=
  match ([("meta", T)] : List (String × StageEnumType)).lookup s with
  | some mo => .ok mo
  | none => .error (.attributeError s)

namespace OrderedEnum

/-- OrderedEnum._format__: identical body to StageEnum._member__. -/
def format__ (T : StageEnumType) (a : EnumArg) : Except PyErr Member :=
  match a with
  | .mem m => .ok m
  | .raw v =>
    match cls_call T v with
    | some m => .ok m
    | none => .error .valueError

/-- OrderedEnum.follows: reads `self._meta.flows`, but the metaclass stores
the options under `meta`, so the `_meta` lookup fails. -/
def follows (T : StageEnumType) (self : Member) (other : EnumArg) :
    Except PyErr Bool := do
  let o ← format__ T other
  let mo ← oeGetAttr T "_meta"
  pure (decide (self ∈ flowsGet mo.flows o))

/-- OrderedEnum.precedes: also reads `self._meta.flows`. -/
def precedes (T : StageEnumType) (self : Member) (other : EnumArg) :
    Except PyErr Bool := do
  let o ← format__ T other
  let mo ← oeGetAttr T "_meta"
  pure (decide (o ∈ flowsGet mo.flows self))

/-- OrderedEnum.index_: reads `self._meta.ordering`. -/
def index_ (T : StageEnumType) (self : Member) : Except PyErr Nat := do
  let mo ← oeGetAttr T "_meta"
  match listIndex self mo.ordering with
  | some i => .ok i
  | none => .error .valueError

/-- OrderedEnum.__lt__. -/
def lt (T : StageEnumType) (self : Member) (other : EnumArg) :
    Except PyErr Bool := do
  let o ← format__ T other
  let i ← index_ T self
  let j ← index_ T o
  pure (decide (i < j))

/-- OrderedEnum.__sub__: the reversed branch reads the nonexistent
`meta.len_ordering`; both branches first need `index_`, which reads the
nonexistent `_meta`. -/
def sub (T : StageEnumType) (self : Member) (other : EnumArg) :
    Except PyErr (List Member) := do
  let o ← format__ T other
  let i ← index_ T self
  let j ← index_ T o
  let mo ← oeGetAttr T "meta"
  if i ≤ j then
    pure (pySlice mo.ordering ((i : Int) + 1) (j : Int))
  else do
    let n : Int ← mo_len_ordering mo
    pure (pySlice mo.ordering (-n + (j : Int) + 1) (-n + (i : Int)))

/-- OrderedEnum.pre_enum_member: indexes the nonexistent
`meta.len_ordering` instead of the ordering. -/
def pre_enum_member (T : StageEnumType) (self : Member) :
    Except PyErr Member := do
  let i ← index_ T self
  let idx : Int := (i : Int) - 1
  if idx < 0 then
    .error (.indexError "No previous")
  else do
    let mo ← oeGetAttr T "meta"
    let l : List Member ← mo_len_ordering mo
    match pyGet l idx with
    | some m => .ok m
    | none => .error (.indexError "list index out of range")

end OrderedEnum

/-- Member PENDING of the specification scenario, raw value pending. -/
def PENDING : Member := ⟨"PENDING", RawVal.str "pending"⟩

/-- Member RUNNING of the specification scenario, raw value running. -/
def RUNNING : Member := ⟨"RUNNING", RawVal.str "running"⟩

/-- Member DONE of the specification scenario, raw value done. -/
def DONE : Member := ⟨"DONE", RawVal.str "done"⟩

/-- Member CLOSED of the specification scenario, raw value expired. -/
def CLOSED : Member := ⟨"CLOSED", RawVal.str "expired"⟩

/-- The resolved Status type of the scenario: ordering [PENDING, RUNNING,
DONE], flows PENDING to [RUNNING] and RUNNING to [DONE, CLOSED]. -/
def statusE : StageEnumType :=
  ⟨[PENDING, RUNNING, DONE, CLOSED],
   [PENDING, RUNNING, DONE],
   [(PENDING, [RUNNING]), (RUNNING, [DONE, CLOSED])]⟩

/-- Position returned by `listIndex` is a valid index of the list. -/
theorem listIndex_lt_length {m : Member} {l : List Member} {i : Nat}
    (h : listIndex m l = some i) : i < l.length := by
  induction l generalizing i with
  | nil => simp [listIndex] at h
  | cons x xs ih =>
    simp only [listIndex] at h
    split at h
    · cases h; simp
    · obtain ⟨j, hj, rfl⟩ := Option.map_eq_some'.mp h
      simpa using Nat.succ_lt_succ (ih hj)

/-- The lookup `listIndex` fails exactly on elements absent from the list. -/
theorem listIndex_eq_none_iff {m : Member} {l : List Member} :
    listIndex m l = none ↔ m ∉ l := by
  induction l with
  | nil => simp [listIndex]
  | cons x xs ih =>
    by_cases hx : x = m
    · subst hx; simp [listIndex]
    · simp only [listIndex, if_neg hx, Option.map_eq_none', ih, List.mem_cons]
      constructor
      · intro h hc
        rcases hc with hc | hc
        · exact hx hc.symm
        · exact h hc
      · intro h hc; exact h (Or.inr hc)

/-- A successful `index_` call is a successful `listIndex` lookup. -/
theorem index_ok_some {T : StageEnumType} {m : Member} {i : Nat}
    (h : StageEnum.index_ T m = .ok i) : listIndex m T.ordering = some i := by
  unfold StageEnum.index_ at h
  cases hx : listIndex m T.ordering with
  | none => rw [hx] at h; cases h
  | some j => rw [hx] at h; cases h; rfl

/-- Looking up a member absent from the Ordering raises ValueError. -/
theorem index_error_of_not_mem {T : StageEnumType} {m : Member}
    (h : m ∉ T.ordering) : StageEnum.index_ T m = .error .valueError := by
  unfold StageEnum.index_
  rw [listIndex_eq_none_iff.mpr h]

/-- Python indexing at an in-range nonnegative position returns the element
at that position. -/
theorem pyGet_natCast {l : List α} {k : Nat} (hk : k < l.length) (d : α) :
    pyGet l (k : Int) = some (l.getD k d) := by
  have h0 : ¬((k : Int) < 0) := by omega
  simp [pyGet, h0, Int.toNat_natCast, List.getD_eq_getElem?_getD,
    List.getElem?_eq_getElem hk]

/-- Python indexing past the end of the list returns nothing. -/
theorem pyGet_natCast_none {l : List α} {k : Nat} (hk : l.length ≤ k) :
    pyGet l (k : Int) = none := by
  have h0 : ¬((k : Int) < 0) := by omega
  simp [pyGet, h0, Int.toNat_natCast]
  omega

/-- C1: for members a and b both present in the Ordering with
ordinal(a) > ordinal(b), the reversed branch of `__sub__` returns the
negative-index slice Ordering[-N + ordinal(b) + 1 : -N + ordinal(a)], and
that slice is exactly the forward slice
Ordering[ordinal(b) + 1 : ordinal(a)]. -/
theorem stage_sub_reversed_eq_forward (T : StageEnumType) (a b : Member)
    (ia ib : Nat) (ha : StageEnum.index_ T a = .ok ia)
    (hb : StageEnum.index_ T b = .ok ib) (hlt : ib < ia) :
    StageEnum.sub T a (.mem b) =
      .ok (pySlice T.ordering (-(T.ordering.length : Int) + ib + 1)
        (-(T.ordering.length : Int) + ia)) ∧
    pySlice T.ordering (-(T.ordering.length : Int) + ib + 1)
        (-(T.ordering.length : Int) + ia) =
      pySlice T.ordering ((ib : Int) + 1) (ia : Int) := by
  have hia : ia < T.ordering.length := listIndex_lt_length (index_ok_some ha)
  have h1 : pyNorm T.ordering.length (-(T.ordering.length : Int) + ib + 1) =
      ib + 1 := by
    simp only [pyNorm]; split <;> omega
  have h2 : pyNorm T.ordering.length (-(T.ordering.length : Int) + ia) = ia := by
    simp only [pyNorm]; split <;> omega
  have h3 : pyNorm T.ordering.length ((ib : Int) + 1) = ib + 1 := by
    simp only [pyNorm]; split <;> omega
  have h4 : pyNorm T.ordering.length ((ia : Int)) = ia := by
    simp only [pyNorm]; split <;> omega
  constructor
  · unfold StageEnum.sub
    simp only [StageEnum.member__, ha, hb, bind, Except.bind]
    rw [if_neg (by omega)]
    rfl
  · simp only [pySlice, h1, h2, h3, h4]

/-- C1 witness: in the Status scenario, DONE - PENDING takes the reversed
branch and equals the forward slice, namely [RUNNING]. -/
theorem stage_sub_reversed_eq_forward_witness :
    StageEnum.sub statusE DONE (.mem PENDING) =
      .ok (pySlice statusE.ordering (-(statusE.ordering.length : Int) + 0 + 1)
        (-(statusE.ordering.length : Int) + 2)) ∧
    pySlice statusE.ordering (-(statusE.ordering.length : Int) + 0 + 1)
        (-(statusE.ordering.length : Int) + 2) =
      pySlice statusE.ordering ((0 : Nat) + 1 : Int) ((2 : Nat) : Int) :=
  stage_sub_reversed_eq_forward statusE DONE PENDING 2 0 rfl rfl
    (by decide)

/-- C2 counterexample: query-time coercion does no name matching.  In the
Status scenario, coercing the upper-cased member name PENDING raises
ValueError instead of yielding the member PENDING, and coercing the
lower-cased member name closed raises ValueError instead of yielding the
member CLOSED. -/
theorem stage_member_coerce_by_name_fails :
    StageEnum.member__ statusE (.raw (.str "PENDING")) = .error .valueError ∧
    StageEnum.member__ statusE (.raw (.str "closed")) = .error .valueError ∧
    get_enum_member statusE "pending" = some PENDING := ⟨rfl, rfl, rfl⟩

/-- C2 amended: query-time coercion (`_member__`) accepts an
already-canonical member unchanged or a raw underlying value matched
against member values (first declared match), and raises ValueError when
the value matches no member; it performs no name matching. -/
theorem stage_member_coerce_value (T : StageEnumType) (m : Member)
    (v : RawVal) (hm : cls_call T m.value = some m)
    (hv : cls_call T v = none) :
    StageEnum.member__ T (.mem m) = .ok m ∧
    StageEnum.member__ T (.raw m.value) = .ok m ∧
    StageEnum.member__ T (.raw v) = .error .valueError := by
  refine ⟨rfl, ?_, ?_⟩
  · simp only [StageEnum.member__, hm]
  · simp only [StageEnum.member__, hv]

/-- C2 witness: in the Status scenario, coercion by canonical member and by
the raw value pending both give PENDING, and the unmatched raw value closed
raises. -/
theorem stage_member_coerce_value_witness :
    StageEnum.member__ statusE (.mem PENDING) = .ok PENDING ∧
    StageEnum.member__ statusE (.raw PENDING.value) = .ok PENDING ∧
    StageEnum.member__ statusE (.raw (.str "closed")) = .error .valueError :=
  stage_member_coerce_value statusE PENDING (.str "closed") rfl rfl

/-- C3: follows is graph membership of self in the successor list of the
coerced other, precedes is the same directed-edge fact viewed from the
source, so a.follows(b) and b.precedes(a) coincide, and neither depends on
the Ordering in any way. -/
theorem stage_follows_precedes_graph (T : StageEnumType) (a b : Member) :
    (StageEnum.follows T a (.mem b) = .ok true ↔ a ∈ flowsGet T.flows b) ∧
    StageEnum.precedes T b (.mem a) = StageEnum.follows T a (.mem b) ∧
    (∀ ord : List Member,
      StageEnum.follows ⟨T.members, ord, T.flows⟩ a (.mem b) =
        StageEnum.follows T a (.mem b) ∧
      StageEnum.precedes ⟨T.members, ord, T.flows⟩ b (.mem a) =
        StageEnum.precedes T b (.mem a)) := by
  refine ⟨?_, rfl, fun ord => ⟨rfl, rfl⟩⟩
  show Except.ok (decide (a ∈ flowsGet T.flows b)) = .ok true ↔
    a ∈ flowsGet T.flows b
  simp

/-- C4: is_comparable is a Bool-valued total predicate that is true exactly
when coercion succeeds and the coerced member is present in the Ordering;
coercion failure and absence both give false. -/
theorem stage_is_comparable_total (T : StageEnumType) (a : EnumArg) :
    (StageEnum.is_comparable T a = true ↔
      ∃ m, StageEnum.member__ T a = .ok m ∧ m ∈ T.ordering) ∧
    (∀ e, StageEnum.member__ T a = .error e →
      StageEnum.is_comparable T a = false) ∧
    (∀ m, StageEnum.member__ T a = .ok m → m ∉ T.ordering →
      StageEnum.is_comparable T a = false) := by
  refine ⟨?_, ?_, ?_⟩
  · unfold StageEnum.is_comparable
    cases h : StageEnum.member__ T a with
    | ok m => simp
    | error e => simp
  · intro e he
    unfold StageEnum.is_comparable
    rw [he]
  · intro m hm hnot
    unfold StageEnum.is_comparable
    rw [hm]
    simpa using hnot

/-- C5: a member absent from the Ordering has no ordinal (ValueError, not a
sentinel), and every comparison with such a member on either side raises
ValueError rather than returning a boolean. -/
theorem stage_absent_member_raises (T : StageEnumType) (a b : Member)
    (ha : a ∉ T.ordering) :
    StageEnum.index_ T a = .error .valueError ∧
    StageEnum.lt T a (.mem b) = .error .valueError ∧
    StageEnum.lt T b (.mem a) = .error .valueError ∧
    StageEnum.le T a (.mem b) = .error .valueError ∧
    StageEnum.le T b (.mem a) = .error .valueError ∧
    StageEnum.gt T a (.mem b) = .error .valueError ∧
    StageEnum.gt T b (.mem a) = .error .valueError ∧
    StageEnum.ge T a (.mem b) = .error .valueError ∧
    StageEnum.ge T b (.mem a) = .error .valueError := by
  have hia : StageEnum.index_ T a = .error .valueError :=
    index_error_of_not_mem ha
  refine ⟨hia, ?_, ?_, ?_, ?_, ?_, ?_, ?_, ?_⟩ <;>
  · cases hB : listIndex b T.ordering with
    | none =>
      have hib : StageEnum.index_ T b = .error .valueError := by
        unfold StageEnum.index_; rw [hB]
      simp only [StageEnum.lt, StageEnum.le, StageEnum.gt, StageEnum.ge,
        StageEnum.member__, hia, hib, bind, Except.bind]
    | some j =>
      have hib : StageEnum.index_ T b = .ok j := by
        unfold StageEnum.index_; rw [hB]
      simp only [StageEnum.lt, StageEnum.le, StageEnum.gt, StageEnum.ge,
        StageEnum.member__, hia, hib, bind, Except.bind]

/-- C5 witness: CLOSED is absent from the Status Ordering, so its ordinal
request and all comparisons against PENDING raise ValueError. -/
theorem stage_absent_member_raises_witness :
    StageEnum.index_ statusE CLOSED = .error .valueError ∧
    StageEnum.lt statusE CLOSED (.mem PENDING) = .error .valueError ∧
    StageEnum.lt statusE PENDING (.mem CLOSED) = .error .valueError ∧
    StageEnum.le statusE CLOSED (.mem PENDING) = .error .valueError ∧
    StageEnum.le statusE PENDING (.mem CLOSED) = .error .valueError ∧
    StageEnum.gt statusE CLOSED (.mem PENDING) = .error .valueError ∧
    StageEnum.gt statusE PENDING (.mem CLOSED) = .error .valueError ∧
    StageEnum.ge statusE CLOSED (.mem PENDING) = .error .valueError ∧
    StageEnum.ge statusE PENDING (.mem CLOSED) = .error .valueError :=
  stage_absent_member_raises statusE CLOSED PENDING (by decide)

/-- C6: previous of the first member and next of the last member raise
IndexError and never wrap around; a non-boundary member has previous/next at
ordinal minus/plus one; the all-previous and all-next accessors return the
strict prefix/suffix of the Ordering and are empty, not an error, at the
boundaries. -/
theorem stage_neighbor_accessors (T : StageEnumType) (m : Member) (i : Nat)
    (hi : StageEnum.index_ T m = .ok i) :
    (i = 0 → StageEnum.pre_enum_member T m =
      .error (.indexError "No previous")) ∧
    (0 < i → StageEnum.pre_enum_member T m =
      .ok (T.ordering.getD (i - 1) m)) ∧
    (i + 1 = T.ordering.length → StageEnum.next_enum_member T m =
      .error (.indexError "list index out of range")) ∧
    (i + 1 < T.ordering.length → StageEnum.next_enum_member T m =
      .ok (T.ordering.getD (i + 1) m)) ∧
    StageEnum.pre_enum_members T m = .ok (T.ordering.take i) ∧
    StageEnum.next_enum_members T m = .ok (T.ordering.drop (i + 1)) ∧
    (i = 0 → StageEnum.pre_enum_members T m = .ok []) ∧
    (i + 1 = T.ordering.length → StageEnum.next_enum_members T m = .ok []) := by
  have hiLen : i < T.ordering.length := listIndex_lt_length (index_ok_some hi)
  have hpre : StageEnum.pre_enum_members T m = .ok (T.ordering.take i) := by
    unfold StageEnum.pre_enum_members
    simp only [hi, bind, Except.bind]
    have h0 : pyNorm T.ordering.length 0 = 0 := by
      simp only [pyNorm]; split <;> omega
    have h1 : pyNorm T.ordering.length (i : Int) = i := by
      simp only [pyNorm]; split <;> omega
    simp [pySlice, h0, h1]
    rfl
  have hnext : StageEnum.next_enum_members T m =
      .ok (T.ordering.drop (i + 1)) := by
    unfold StageEnum.next_enum_members
    simp only [hi, bind, Except.bind]
    have h0 : pyNorm T.ordering.length (T.ordering.length : Int) =
        T.ordering.length := by
      simp only [pyNorm]; split <;> omega
    have h1 : pyNorm T.ordering.length ((i : Int) + 1) = i + 1 := by
      simp only [pyNorm]; split <;> omega
    simp [pySlice, h0, h1]
    rfl
  refine ⟨?_, ?_, ?_, ?_, hpre, hnext, ?_, ?_⟩
  · intro h0; subst h0
    unfold StageEnum.pre_enum_member
    simp only [hi, bind, Except.bind]
    norm_num
  · intro hpos
    unfold StageEnum.pre_enum_member
    simp only [hi, bind, Except.bind]
    rw [if_neg (by omega)]
    have hcast : (i : Int) - 1 = ((i - 1 : Nat) : Int) := by omega
    rw [hcast, pyGet_natCast (by omega) m]
  · intro hlast
    unfold StageEnum.next_enum_member
    simp only [hi, bind, Except.bind]
    have hcast : (i : Int) + 1 = ((i + 1 : Nat) : Int) := by omega
    rw [hcast, pyGet_natCast_none (by omega)]
  · intro hlt
    unfold StageEnum.next_enum_member
    simp only [hi, bind, Except.bind]
    have hcast : (i : Int) + 1 = ((i + 1 : Nat) : Int) := by omega
    rw [hcast, pyGet_natCast (by omega) m]
  · intro h0; subst h0
    simpa using hpre
  · intro hlast
    rw [hnext, List.drop_eq_nil_of_le (by omega)]

/-- C6 witness: RUNNING sits at ordinal 1 of the Status Ordering, so its
previous is the member at ordinal 0, its next is the member at ordinal 2,
and its strict prefix and suffix are the take and drop of the Ordering. -/
theorem stage_neighbor_accessors_witness :
    ((1 : Nat) = 0 → StageEnum.pre_enum_member statusE RUNNING =
      .error (.indexError "No previous")) ∧
    (0 < (1 : Nat) → StageEnum.pre_enum_member statusE RUNNING =
      .ok (statusE.ordering.getD (1 - 1) RUNNING)) ∧
    (1 + 1 = statusE.ordering.length → StageEnum.next_enum_member statusE RUNNING =
      .error (.indexError "list index out of range")) ∧
    (1 + 1 < statusE.ordering.length → StageEnum.next_enum_member statusE RUNNING =
      .ok (statusE.ordering.getD (1 + 1) RUNNING)) ∧
    StageEnum.pre_enum_members statusE RUNNING = .ok (statusE.ordering.take 1) ∧
    StageEnum.next_enum_members statusE RUNNING = .ok (statusE.ordering.drop (1 + 1)) ∧
    ((1 : Nat) = 0 → StageEnum.pre_enum_members statusE RUNNING = .ok []) ∧
    (1 + 1 = statusE.ordering.length → StageEnum.next_enum_members statusE RUNNING = .ok []) :=
  stage_neighbor_accessors statusE RUNNING 1 rfl

/-- C7: when the ordinals of two members of the Ordering are equal or differ
by exactly one, `__sub__` returns the empty list, in both directions. -/
theorem stage_sub_adjacent_empty (T : StageEnumType) (a b : Member)
    (ia ib : Nat) (ha : StageEnum.index_ T a = .ok ia)
    (hb : StageEnum.index_ T b = .ok ib)
    (hadj : ia = ib ∨ ia + 1 = ib ∨ ib + 1 = ia) :
    StageEnum.sub T a (.mem b) = .ok [] := by
  have hia : ia < T.ordering.length := listIndex_lt_length (index_ok_some ha)
  have hib : ib < T.ordering.length := listIndex_lt_length (index_ok_some hb)
  unfold StageEnum.sub
  simp only [StageEnum.member__, ha, hb, bind, Except.bind]
  rcases hadj with h | h | h
  · subst h
    rw [if_pos (le_refl ia)]
    have h1 : pyNorm T.ordering.length ((ia : Int) + 1) = ia + 1 := by
      simp only [pyNorm]; split <;> omega
    have h2 : pyNorm T.ordering.length ((ia : Int)) = ia := by
      simp only [pyNorm]; split <;> omega
    simp only [pySlice, h1, h2]
    rw [List.drop_eq_nil_of_le (by rw [List.length_take]; omega)]
    rfl
  · rw [if_pos (by omega)]
    have h1 : pyNorm T.ordering.length ((ia : Int) + 1) = ia + 1 := by
      simp only [pyNorm]; split <;> omega
    have h2 : pyNorm T.ordering.length ((ib : Int)) = ib := by
      simp only [pyNorm]; split <;> omega
    simp only [pySlice, h1, h2]
    rw [List.drop_eq_nil_of_le (by rw [List.length_take]; omega)]
    rfl
  · rw [if_neg (by omega)]
    have h1 : pyNorm T.ordering.length
        (-(T.ordering.length : Int) + (ib : Int) + 1) = ib + 1 := by
      simp only [pyNorm]; split <;> omega
    have h2 : pyNorm T.ordering.length
        (-(T.ordering.length : Int) + (ia : Int)) = ia := by
      simp only [pyNorm]; split <;> omega
    simp only [pySlice, h1, h2]
    rw [List.drop_eq_nil_of_le (by rw [List.length_take]; omega)]
    rfl

/-- C7 witness: PENDING and RUNNING are adjacent in the Status Ordering, so
PENDING - RUNNING is empty. -/
theorem stage_sub_adjacent_empty_witness :
    StageEnum.sub statusE PENDING (.mem RUNNING) = .ok [] :=
  stage_sub_adjacent_empty statusE PENDING RUNNING 0 1 rfl rfl
    (Or.inr (Or.inl rfl))

/-- C8: the Status scenario.  Resolving the declared ordering and flows
yields the expected structures, and every listed query evaluates as the
specification states: RUNNING follows PENDING, DONE does not follow PENDING,
PENDING precedes RUNNING, PENDING < RUNNING < DONE, between PENDING and DONE
is [RUNNING], between RUNNING and PENDING is empty, the raw value expired is
not comparable, the raw value pending coerces to PENDING, and the boundary
neighbors raise IndexError. -/
theorem status_scenario :
    resolveStage [PENDING, RUNNING, DONE, CLOSED]
      ["PENDING", "RUNNING", "DONE"]
      [("PENDING", ["RUNNING"]), ("RUNNING", ["DONE", "expired"])] =
        some statusE ∧
    StageEnum.follows statusE RUNNING (.mem PENDING) = .ok true ∧
    StageEnum.follows statusE DONE (.mem PENDING) = .ok false ∧
    StageEnum.precedes statusE PENDING (.mem RUNNING) = .ok true ∧
    StageEnum.lt statusE PENDING (.mem RUNNING) = .ok true ∧
    StageEnum.lt statusE RUNNING (.mem DONE) = .ok true ∧
    StageEnum.sub statusE PENDING (.mem DONE) = .ok [RUNNING] ∧
    StageEnum.sub statusE RUNNING (.mem PENDING) = .ok [] ∧
    StageEnum.is_comparable statusE (.raw (.str "expired")) = false ∧
    StageEnum.member__ statusE (.raw (.str "pending")) = .ok PENDING ∧
    StageEnum.pre_enum_member statusE PENDING =
      .error (.indexError "No previous") ∧
    StageEnum.next_enum_member statusE DONE =
      .error (.indexError "list index out of range") :=
  ⟨rfl, rfl, rfl, rfl, rfl, rfl, rfl, rfl, rfl, rfl, rfl, rfl⟩

/-- C9: the StageEnum and OrderedEnum variants are not behaviorally
equivalent on an identically declared type.  On the resolved Status type,
StageEnum answers follows, the comparison, between and the previous-member
query, while OrderedEnum raises AttributeError on each of them, because its
methods read the attribute _meta that its metaclass never sets (the options
are stored under meta) and its neighbor accessors index the nonexistent
meta.len_ordering. -/
theorem ordered_variant_diverges :
    StageEnum.follows statusE RUNNING (.mem PENDING) = .ok true ∧
    OrderedEnum.follows statusE RUNNING (.mem PENDING) =
      .error (.attributeError "_meta") ∧
    StageEnum.precedes statusE PENDING (.mem RUNNING) = .ok true ∧
    OrderedEnum.precedes statusE PENDING (.mem RUNNING) =
      .error (.attributeError "_meta") ∧
    StageEnum.lt statusE PENDING (.mem RUNNING) = .ok true ∧
    OrderedEnum.lt statusE PENDING (.mem RUNNING) =
      .error (.attributeError "_meta") ∧
    StageEnum.sub statusE PENDING (.mem DONE) = .ok [RUNNING] ∧
    OrderedEnum.sub statusE PENDING (.mem DONE) =
      .error (.attributeError "_meta") ∧
    StageEnum.pre_enum_member statusE RUNNING = .ok PENDING ∧
    OrderedEnum.pre_enum_member statusE RUNNING =
      .error (.attributeError "_meta") :=
  ⟨rfl, rfl, rfl, rfl, rfl, rfl, rfl, rfl, rfl, rfl⟩

/-- C10: follows and precedes never raise for canonical members; a source
member missing from the flows mapping, or mapped to an empty successor
list, defaults to no successors and both predicates return false. -/
theorem stage_flows_missing_defaults (T : StageEnumType) (a b : Member)
    (h : T.flows.lookup b = none ∨ T.flows.lookup b = some []) :
    StageEnum.follows T a (.mem b) = .ok false ∧
    StageEnum.precedes T b (.mem a) = .ok false := by
  have hg : flowsGet T.flows b = [] := by
    rcases h with h | h <;> simp [flowsGet, h]
  constructor
  · show Except.ok (decide (a ∈ flowsGet T.flows b)) = .ok false
    rw [hg]; simp
  · show Except.ok (decide (a ∈ flowsGet T.flows b)) = .ok false
    rw [hg]; simp

/-- C10 witness: DONE has no entry in the Status flows mapping, so nothing
follows from it and it precedes nothing. -/
theorem stage_flows_missing_defaults_witness :
    StageEnum.follows statusE PENDING (.mem DONE) = .ok false ∧
    StageEnum.precedes statusE DONE (.mem PENDING) = .ok false :=
  stage_flows_missing_defaults statusE PENDING DONE (Or.inl rfl)
